import Mathlib

/-! Verification of the code-generation core of CodeSlim (`codeslim/codegen.py`).

The Python AST nodes the generator manipulates are shallowly embedded as
`PyNode`; the generic `Rewriter` (a `NodeTransformer` carrying a handler
table plus pre/post hooks) is embedded as an executable `visit` function
returning, besides the rewritten tree, a trace of hook and handler firings
so that ordering claims can be stated.  Handlers may raise, which is
embedded as `Except String`.
-/

set_option maxHeartbeats 1000000

namespace CodeSlim

/-- A Python `ast.alias`, i.e. the `name as asname` component of
    an import statement. -/
structure PyAlias where
  name : String
  asname : Option String
deriving DecidableEq, Repr

/-- Shallow embedding of the Python AST nodes that `codegen.py` treats
specially, plus `other` for every remaining node kind; the children of
`other` are the AST children that `NodeTransformer.generic_visit` would
visit.  `importStmt` embeds a plain `ast.Import`; `importFrom` embeds
`ast.ImportFrom`, with `is_target` standing for the presence of the
`is_target` attribute the parser sets on imports resolved to corpus files. -/
inductive PyNode where
  | module (body : List PyNode)
  | functionDef (name : String) (body : List PyNode)
  | classDef (name : String) (bases : List String) (body : List PyNode)
  | importFrom (mod : String) (level : Nat) (names : List PyAlias) (is_target : Bool)
  | importStmt (names : List PyAlias)
  | other (kind : String) (children : List PyNode)
deriving Repr

/-- Dispatch key `node.__class__.__name__`, used for handler and hook lookup. -/
def kindOf : PyNode → String
  | .module _ => "Module"
  | .functionDef _ _ => "FunctionDef"
  | .classDef _ _ _ => "ClassDef"
  | .importFrom _ _ _ _ => "ImportFrom"
  | .importStmt _ => "Import"
  | .other k _ => k

/-- The AST children of a node, in the order `generic_visit` traverses them. -/
def childrenOf : PyNode → List PyNode
  | .module b => b
  | .functionDef _ b => b
  | .classDef _ _ b => b
  | .importFrom _ _ _ _ => []
  | .importStmt _ => []
  | .other _ cs => cs

/-- Helper for `lastComponent`: scan the characters, restarting the
accumulator at every separator, so the final accumulator is the text
after the last separator. -/
def lastComponentGo (sep : Char) : List Char → List Char → List Char
  | [], acc => acc.reverse
  | c :: cs, acc =>
      if c = sep then lastComponentGo sep cs []
      else lastComponentGo sep cs (c :: acc)

/-- Python `module_name.split(".")[-1]`: the last dot-separated component of a
dotted module name (the empty string after a trailing dot, the whole name
when it has no dot), exactly as Python's `str.split` yields it. -/
def lastComponent (s : String) : String :=
  String.mk (lastComponentGo '.' s.toList [])

/-- Embeds `FileLevelCodeGenerator.rewrite_imports` (codegen.py lines 233-244).
An `ImportFrom` node carrying the `is_target` mark has its module name
replaced through `module_mapper` when a mapping entry exists; otherwise the
module name is replaced by the last dot-separated component of the original
name and the import level is reset to `0`.  All other nodes are returned
unchanged. -/
def rewrite_imports (module_mapper : List (String × String)) : PyNode → PyNode
  | .importFrom mod lvl names tgt =>
      if tgt then
        match module_mapper.lookup mod with
        | some m => .importFrom m lvl names tgt
        | none => .importFrom (lastComponent mod) 0 names tgt
      else .importFrom mod lvl names tgt
  | n => n

/-- An observable event of a traversal: a pre-hook firing, a registered
handler firing, or a post-hook firing, each tagged with the node-kind name
it was keyed on. -/
inductive Ev where
  | pre (kind : String)
  | handler (kind : String)
  | post (kind : String)
deriving DecidableEq, Repr

/-- Embeds `Rewriter.__init__` (codegen.py lines 88-99): the handler table
(`targets`, installed as `visit_<Kind>` methods), and the optional pre/post
hook tables keyed by node-kind name.  A handler returns the rewritten node
or the deletion sentinel `REMOVE_NODE` (embedded as `none`), and may raise
(embedded as `Except.error`).  A pre-hook's return value is discarded by
`visit`, so only its firing is recorded; a post-hook may replace the
result. -/
structure Rewriter where
  targets : List (String × (PyNode → Except String (Option PyNode)))
  pre_hooks : List String := []
  post_hooks : List (String × (Option PyNode → Option PyNode)) := []

/-- The deletion sentinel `REMOVE_NODE = None` (codegen.py line 18). -/
def REMOVE_NODE : Option PyNode := none

mutual

/-- Embeds `Rewriter.visit` (codegen.py lines 101-112).  In order: fire the
node-kind's pre-hook if registered (its return value is discarded); if the
node is the sentinel `REMOVE_NODE` (Python `None`, whose class name is
`NoneType`), return it immediately; otherwise dispatch to the registered
handler for the kind, falling back to `generic_visit`; finally fire the
post-hook if registered, which may replace the result. -/
def visit (r : Rewriter) : Option PyNode → Except String (Option PyNode × List Ev)
  | none =>
      .ok (none, if r.pre_hooks.contains "NoneType" then [Ev.pre "NoneType"] else [])
  | some n =>
      match r.targets.lookup (kindOf n) with
      | some h =>
          match h n with
          | .error e => .error e
          | .ok res =>
              match r.post_hooks.lookup (kindOf n) with
              | some g =>
                  .ok (g res, (if r.pre_hooks.contains (kindOf n) then [Ev.pre (kindOf n)] else [])
                    ++ [Ev.handler (kindOf n), Ev.post (kindOf n)])
              | none =>
                  .ok (res, (if r.pre_hooks.contains (kindOf n) then [Ev.pre (kindOf n)] else [])
                    ++ [Ev.handler (kindOf n)])
      | none =>
          match genericVisit r n with
          | .error e => .error e
          | .ok (n', evs) =>
              match r.post_hooks.lookup (kindOf n) with
              | some g =>
                  .ok (g (some n'), (if r.pre_hooks.contains (kindOf n) then [Ev.pre (kindOf n)] else [])
                    ++ evs ++ [Ev.post (kindOf n)])
              | none =>
                  .ok (some n', (if r.pre_hooks.contains (kindOf n) then [Ev.pre (kindOf n)] else [])
                    ++ evs)
termination_by n => sizeOf n
decreasing_by all_goals simp_wf

/-- Embeds `NodeTransformer.generic_visit`: rebuild the node with its visited
children; a child whose visit returned the deletion sentinel is dropped
from the ordered child sequence.  (`alias` children of import nodes are
kept as data: no handler or hook of this repository is keyed on
`alias`.) -/
def genericVisit (r : Rewriter) : PyNode → Except String (PyNode × List Ev)
  | .module b =>
      match visitChildren r b with
      | .error e => .error e
      | .ok (b', evs) => .ok (.module b', evs)
  | .functionDef nm b =>
      match visitChildren r b with
      | .error e => .error e
      | .ok (b', evs) => .ok (.functionDef nm b', evs)
  | .classDef nm bs b =>
      match visitChildren r b with
      | .error e => .error e
      | .ok (b', evs) => .ok (.classDef nm bs b', evs)
  | .importFrom mod lvl ns t => .ok (.importFrom mod lvl ns t, [])
  | .importStmt ns => .ok (.importStmt ns, [])
  | .other k cs =>
      match visitChildren r cs with
      | .error e => .error e
      | .ok (cs', evs) => .ok (.other k cs', evs)
termination_by n => sizeOf n
decreasing_by all_goals simp_wf

/-- Visit an ordered child sequence left to right; an exception in one
child propagates and prevents visiting the children after it; a child
rewritten to the sentinel is removed from the sequence. -/
def visitChildren (r : Rewriter) : List PyNode → Except String (List PyNode × List Ev)
  | [] => .ok ([], [])
  | c :: cs =>
      match visit r (some c) with
      | .error e => .error e
      | .ok (res, ev1) =>
          match visitChildren r cs with
          | .error e => .error e
          | .ok (cs', ev2) =>
              .ok ((match res with
                    | none => cs'
                    | some c' => c' :: cs'), ev1 ++ ev2)
termination_by l => sizeOf l
decreasing_by
  all_goals simp_wf
  all_goals have h : 0 < sizeOf cs := by cases cs <;> simp_arith
  all_goals omega

end

/-- The rewritten tree a visit produces, the trace forgotten. -/
def visitResult (r : Rewriter) (n : Option PyNode) : Except String (Option PyNode) :=
  (visit r n).map Prod.fst

/-- Embeds `FileLevelCodeGenerator._build_rewriter` (codegen.py lines 204-211):
handlers for `Import` and `ImportFrom` only, both `rewrite_imports`
(which never deletes and never raises); entries of a custom rewriter
override on key collision, as `dict.update` does. -/
def fileLevel_build_rewriter (mapper : List (String × String))
    (custom : List (String × (PyNode → Except String (Option PyNode)))) : Rewriter :=
  { targets := custom ++
      [("Import", fun n => .ok (some (rewrite_imports mapper n))),
       ("ImportFrom", fun n => .ok (some (rewrite_imports mapper n)))] }

/-- The parser data `codegen.py` consumes for one corpus file:
`_local_defs` keys (top-level definition and method names), `_calls` keys
(identifier names referenced in the file), and the file's corpus-resolved
edges of imports (target file, imported symbol name). -/
structure PParser where
  local_defs : List String
  calls : List String
  target_imports : List (String × String)

/-- Modelled from the spec: `DefaultASTParser.get_target_import_names`
lives in `codeslim/parse.py`, which is absent from `src/`.  Per the spec
(§3 `ImportEdge`, §4.1), a parser records for each import statement the
imported symbol name(s) together with the resolved corpus target file;
this accessor returns the symbol names of those corpus-resolved import
edges (it takes no target-file argument, so the names are not filtered
by which file they come from). -/
def get_target_import_names (p : PParser) : List String :=
  p.target_imports.map Prod.snd

/-- Modelled from the spec: `parser.relations` comes from
`codeslim/parse.py`, absent from `src/`.  Per the spec (§3 `CorpusGraph`),
it maps each file to the corpus files its imports resolve to. -/
def relations (corpus : List (String × PParser)) : List (String × List String) :=
  corpus.map (fun fp => (fp.1, fp.2.target_imports.map Prod.fst))

/-- Embeds `FileLevelCodeGenerator._get_imports_info` (codegen.py lines 213-218):
invert the relation into the reverse-import index
"file → files importing from it". -/
def _get_imports_info (relation : List (String × List String)) (f : String) :
    List String :=
  relation.flatMap (fun gts => (gts.2.filter (· == f)).map (fun _ => gts.1))

/-- Embeds `SegmentCodeGenerator._analyze_local_calls` (codegen.py lines 269-279):
the referenced names that are also local definitions. -/
def _analyze_local_calls (p : PParser) : List String :=
  p.calls.filter (fun n => p.local_defs.contains n)

/-- The `extern_uesd` computation of `SegmentCodeGenerator._preprocess`
(codegen.py lines 302-306): concatenate the corpus-import names of every
file that imports from `file`.  (`self.parsers[i]` presupposes every
relation entry is a corpus key; an absent key contributes nothing here.) -/
def externUsed (corpus : List (String × PParser)) (file : String) :
    List String :=
  (_get_imports_info (relations corpus) file).flatMap
    (fun i => match corpus.lookup i with
              | some p => get_target_import_names p
              | none => [])

/-- Embeds `SegmentCodeGenerator.rewrite_defs` (codegen.py lines 320-323): a
function or class definition whose name is in neither the externally-used
set nor the locally-used set is replaced by the deletion sentinel; any
other node is returned unchanged. -/
def rewrite_defs (ext loc : List String) : PyNode → Option PyNode
  | .functionDef nm b =>
      if !ext.contains nm && !loc.contains nm then none
      else some (.functionDef nm b)
  | .classDef nm bs b =>
      if !ext.contains nm && !loc.contains nm then none
      else some (.classDef nm bs b)
  | n => some n

/-- Embeds `SegmentCodeGenerator._build_rewriter` (codegen.py lines 248-258), with
no custom rewriter: `rewrite_imports` on imports, `rewrite_defs` on
function and class definitions, and the `ClassDef` pre-hook
`_classdef_hook` (lines 260-267), whose return value `visit` discards —
its merge bookkeeping is a side effect, so here only its firing is
traced. -/
def segment_build_rewriter (mapper : List (String × String))
    (ext loc : List String) : Rewriter :=
  { targets :=
      [("Import", fun n => .ok (some (rewrite_imports mapper n))),
       ("ImportFrom", fun n => .ok (some (rewrite_imports mapper n))),
       ("FunctionDef", fun n => .ok (rewrite_defs ext loc n)),
       ("ClassDef", fun n => .ok (rewrite_defs ext loc n))],
    pre_hooks := ["ClassDef"] }

/-- The set the claim describes (following the spec's words, to be compared
with `externUsed`): the names imported *from* `file` by some *other*
file, i.e. the symbols of import edges whose target is `file`, over all
files other than `file` itself. -/
def importedFromByOthers (corpus : List (String × PParser)) (file : String) :
    List String :=
  corpus.flatMap (fun gp =>
    if gp.1 == file then []
    else (gp.2.target_imports.filter (fun e => e.1 == file)).map Prod.snd)

/-- The name of a node when it is a function or class definition. -/
def defName : PyNode → Option String
  | .functionDef nm _ => some nm
  | .classDef nm _ _ => some nm
  | _ => none

/-- The names of the top-level function and class definitions of a module
body, in order. -/
def topDefNames (body : List PyNode) : List String :=
  body.filterMap defName

/-- Embeds `SegmentCodeGenerator._rewrite_class_imports` (codegen.py lines
281-289): for an `ImportFrom`, drop it when its first alias (the asname
when set, else the name) is one of the merged-away base-parser keys, else
pass it through; any other dispatched node reaches the `else` branch and
raises (`raise NotImplemented`, itself a raising statement since
`NotImplemented` is not an exception); indexing `node.names[0]` raises on
an empty alias list. -/
def _rewrite_class_imports (base_parsers : List String) :
    PyNode → Except String (Option PyNode)
  | .importFrom mod lvl ns t =>
      match ns with
      | [] => .error "IndexError"
      | a :: rest =>
          if base_parsers.contains (a.asname.getD a.name) then .ok none
          else .ok (some (.importFrom mod lvl (a :: rest) t))
  | _ => .error "raise NotImplemented"

/-- Embeds `SegmentCodeGenerator._postprocess` (codegen.py lines 311-318): a fresh
`Rewriter` with `_rewrite_class_imports` registered for both `ImportFrom`
and `Import`. -/
def _postprocess_rewriter (base_parsers : List String) : Rewriter :=
  { targets := [("ImportFrom", _rewrite_class_imports base_parsers),
                ("Import", _rewrite_class_imports base_parsers)] }

mutual

/-- Whether a tree contains a plain `import x` statement anywhere. -/
def containsImportStmt : PyNode → Bool
  | .importStmt _ => true
  | .importFrom _ _ _ _ => false
  | .module b => containsImportStmtList b
  | .functionDef _ b => containsImportStmtList b
  | .classDef _ _ b => containsImportStmtList b
  | .other _ cs => containsImportStmtList cs

def containsImportStmtList : List PyNode → Bool
  | [] => false
  | c :: cs => containsImportStmt c || containsImportStmtList cs

end

mutual

/-- Well-formedness of an embedded tree as an image of a real Python AST:
an `other` node never carries the class name of a node kind that has its
own constructor here (a real `ast.Import`/`ast.ImportFrom` is embedded as
`importStmt`/`importFrom`), and every `ImportFrom` has at least one
alias, as Python's grammar guarantees. -/
def wfPyNode : PyNode → Bool
  | .importStmt _ => true
  | .importFrom _ _ ns _ => !ns.isEmpty
  | .module b => wfPyNodeList b
  | .functionDef _ b => wfPyNodeList b
  | .classDef _ _ b => wfPyNodeList b
  | .other k cs =>
      !(k == "Import") && !(k == "ImportFrom") && !(k == "Module")
        && !(k == "FunctionDef") && !(k == "ClassDef") && wfPyNodeList cs

def wfPyNodeList : List PyNode → Bool
  | [] => true
  | c :: cs => wfPyNode c && wfPyNodeList cs

end

mutual

/-- The file-level rewrite as a structural map: every import node is
rewritten by `rewrite_imports`, everything else is kept with its children
mapped. -/
def mapImports (mapper : List (String × String)) : PyNode → PyNode
  | .importFrom mod lvl ns t => rewrite_imports mapper (.importFrom mod lvl ns t)
  | .importStmt ns => rewrite_imports mapper (.importStmt ns)
  | .module b => .module (mapImportsList mapper b)
  | .functionDef nm b => .functionDef nm (mapImportsList mapper b)
  | .classDef nm bs b => .classDef nm bs (mapImportsList mapper b)
  | .other k cs => .other k (mapImportsList mapper cs)

def mapImportsList (mapper : List (String × String)) : List PyNode → List PyNode
  | [] => []
  | c :: cs => mapImports mapper c :: mapImportsList mapper cs

end

mutual

/-- Embeds `_ClassVisitor` (codegen.py lines 115-122): record the name of every
`FunctionDef` reached from the class node, recursing into all children
(so the names of functions nested inside method bodies are recorded
too). -/
def collectFuncNames : PyNode → List String
  | .functionDef nm b => nm :: collectFuncNamesList b
  | .module b => collectFuncNamesList b
  | .classDef _ _ b => collectFuncNamesList b
  | .importFrom _ _ _ _ => []
  | .importStmt _ => []
  | .other _ cs => collectFuncNamesList cs

def collectFuncNamesList : List PyNode → List String
  | [] => []
  | c :: cs => collectFuncNames c ++ collectFuncNamesList cs

end

mutual

/-- The methods that `ClassMerging`'s rewriter (targets `FunctionDef` ↦
`_merge_methods`, `Name` ↦ the identity `_rewrite_name`) appends to the
subclass body while visiting one base-class node: every `FunctionDef`
reached by the traversal whose name is not among the subclass's collected
method names, in traversal order.  `_merge_methods` does not recurse into
the function it handles, and `_rewrite_name` does not recurse into a
`Name` node. -/
def mergeCollect (methods : List String) : PyNode → List PyNode
  | .functionDef nm b =>
      if methods.contains nm then [] else [.functionDef nm b]
  | .module b => mergeCollectList methods b
  | .classDef _ _ b => mergeCollectList methods b
  | .importFrom _ _ _ _ => []
  | .importStmt _ => []
  | .other k cs =>
      if k == "Name" then [] else mergeCollectList methods cs

def mergeCollectList (methods : List String) : List PyNode → List PyNode
  | [] => []
  | c :: cs => mergeCollect methods c ++ mergeCollectList methods cs

end

/-- The declared base names of a class node. -/
def basesOf : PyNode → List String
  | .classDef _ bs _ => bs
  | _ => []

/-- The body of a class node. -/
def bodyOf : PyNode → List PyNode
  | .classDef _ _ b => b
  | _ => []

/-- Embeds `ClassMerging.merge` (codegen.py lines 159-164) with `_ClassVisitor`
and `_merge_methods` (lines 115-122, 147-151): the subclass's method-name
set is collected once at construction and never refreshed; then for each
base node in order, the subclass's `bases` attribute is overwritten with
that base's bases and the base's methods not named in the collected set
are appended to the subclass body. -/
def ClassMerging_merge (child : PyNode) (baseNodes : List PyNode) : PyNode :=
  match child with
  | .classDef cn cbs cbody =>
      let methods := collectFuncNames (.classDef cn cbs cbody)
      baseNodes.foldl (fun acc b =>
        .classDef cn (basesOf b) (bodyOf acc ++ mergeCollect methods b))
        (.classDef cn cbs cbody)
  | c => c

/-- The number of top-level methods named `nm` in a class body. -/
def countMethodNamed (nm : String) (body : List PyNode) : Nat :=
  (body.filter (fun m => match m with
    | .functionDef n _ => n == nm
    | _ => false)).length

/-- Overwrite-or-append a file in the modelled output directory (the
semantics of opening a path with mode `w`). -/
def fsWrite (fs : List (String × Option PyNode)) (name : String)
    (payload : Option PyNode) : List (String × Option PyNode) :=
  match fs with
  | [] => [(name, payload)]
  | (k, v) :: rest =>
      if k == name then (k, payload) :: rest
      else (k, v) :: fsWrite rest name payload

/-- Embeds `CodeGenerator._generate_from_ast` (codegen.py lines 60-64): open the
target for writing and write the generated-file header followed by the
printed source.  There is no existence check, no force flag and no error
path: an existing file of the same name is overwritten.  The payload is
abstracted to the tree itself; printing is the external printer
collaborator. -/
def _generate_from_ast (fs : List (String × Option PyNode)) (filename : String)
    (tree : Option PyNode) : List (String × Option PyNode) :=
  fsWrite fs filename tree

/-- Embeds `FileLevelCodeGenerator.generate` (codegen.py lines 220-231), the loop
both generators run: iterate the parsed files in order, skip
`__init__.py`, rewrite each tree with the configured rewriter and write
the result out with `_generate_from_ast`.  The loop body has no
try/except: an exception raised while rewriting propagates out of
`generate`, leaving the files already written and processing none of the
remaining ones. -/
def generate (r : Rewriter) :
    List (String × PyNode) → List (String × Option PyNode) →
    List (String × Option PyNode) × Option String
  | [], fs => (fs, none)
  | (fname, tree) :: rest, fs =>
      if fname == "__init__.py" then generate r rest fs
      else
        match visit r (some tree) with
        | .error e => (fs, some e)
        | .ok (res, _) => generate r rest (_generate_from_ast fs fname res)

/-- Embeds `CodeGenerator.generate_init` (codegen.py lines 66-70): refuse to write
`__init__.py` into a directory that already contains one unless forced.
`existing` is the set of file names present in the target directory. -/
def generate_init (existing : List String) (force : Bool) : Except String Unit :=
  if !force && existing.contains "__init__.py" then
    .error "__init__.py exists!"
  else .ok ()

/-- Embeds `CodeGenerator.copy_file` (codegen.py lines 75-78): refuse to copy onto
an existing file of the same base name unless forced.  `basename` is the
last `/`-separated component, as `os.path.basename` yields for such
paths. -/
def copy_file (existing : List String) (source_file : String) (force : Bool) :
    Except String Unit :=
  if !force && existing.contains
      (String.mk (lastComponentGo '/' source_file.toList [])) then
    .error (source_file ++ " exists!")
  else .ok ()

/-- The corpus of the C1 counterexample: `g.py` imports from `f.py` (the
symbol `y`) and from `h.py` (the symbol `x`); `f.py` defines `x`, never
referenced locally and never imported *from `f.py`* by anyone. -/
def c1Corpus : List (String × PParser) :=
  [("f.py", ⟨["x"], [], []⟩),
   ("g.py", ⟨[], [], [("h.py", "x"), ("f.py", "y")]⟩),
   ("h.py", ⟨["x"], [], []⟩)]

/-- C3: for every `ImportFrom` node marked as referencing a corpus file,
`rewrite_imports` replaces the module reference by the user-supplied mapping
entry when one exists, and otherwise by the last dot-separated component of
the original module name with the nesting level reset to `0`; in particular
with mapping `pkg.util ↦ util`, `from pkg.util import helper` becomes
`from util import helper` at top-level nesting. -/
theorem c3_rewrite_imports_target (mapper : List (String × String))
    (mod : String) (lvl : Nat) (names : List PyAlias) :
    (∀ m, mapper.lookup mod = some m →
      rewrite_imports mapper (.importFrom mod lvl names true) =
        .importFrom m lvl names true)
    ∧ (mapper.lookup mod = none →
      rewrite_imports mapper (.importFrom mod lvl names true) =
        .importFrom (lastComponent mod) 0 names true)
    ∧ rewrite_imports [("pkg.util", "util")]
        (.importFrom "pkg.util" 0 [⟨"helper", none⟩] true) =
        .importFrom "util" 0 [⟨"helper", none⟩] true := by
  refine ⟨?_, ?_, ?_⟩
  · intro m hm
    simp [rewrite_imports, hm]
  · intro hm
    simp [rewrite_imports, hm]
  · rfl

/-- C3 witness: the mapping branch and the fallback branch evaluated at
concrete imports. -/
theorem c3_witness :
    rewrite_imports [("pkg.util", "util")]
      (.importFrom "pkg.util" 0 [⟨"helper", none⟩] true) =
      .importFrom "util" 0 [⟨"helper", none⟩] true
    ∧ rewrite_imports []
      (.importFrom "pkg.util" 2 [⟨"helper", none⟩] true) =
      .importFrom "util" 0 [⟨"helper", none⟩] true := by
  constructor
  · exact (c3_rewrite_imports_target [("pkg.util", "util")] "pkg.util" 0
      [⟨"helper", none⟩]).1 "util" rfl
  · exact (c3_rewrite_imports_target [] "pkg.util" 2
      [⟨"helper", none⟩]).2.1 rfl

/-- C9: every import node that does not reference a corpus file — any plain
`Import` node, and any `ImportFrom` node without the `is_target` mark — is
returned by `rewrite_imports` with its module reference and nesting level
unchanged. -/
theorem c9_rewrite_imports_passthrough (mapper : List (String × String))
    (names : List PyAlias) (mod : String) (lvl : Nat) (ns : List PyAlias) :
    rewrite_imports mapper (.importStmt names) = .importStmt names
    ∧ rewrite_imports mapper (.importFrom mod lvl ns false) =
        .importFrom mod lvl ns false := by
  constructor
  · rfl
  · simp [rewrite_imports]

/-- C6: the steps of `Rewriter.visit` occur in order: the node-kind's
pre-hook fires first when registered; a sentinel node is returned
immediately with no handler dispatch; otherwise the registered handler for
the kind runs (the default structural recursion `genericVisit` when none is
registered); finally the registered post-hook runs and may replace the
returned result. -/
theorem c6_visit_step_order (r : Rewriter) (n : PyNode) :
    (visit r none = .ok (REMOVE_NODE,
        if r.pre_hooks.contains "NoneType" then [Ev.pre "NoneType"] else []))
    ∧ (∀ res tr, visit r (some n) = .ok (res, tr) →
        r.pre_hooks.contains (kindOf n) = true →
        tr.head? = some (Ev.pre (kindOf n)))
    ∧ (∀ h res, r.targets.lookup (kindOf n) = some h → h n = .ok res →
        r.post_hooks.lookup (kindOf n) = none →
        visit r (some n) = .ok (res,
          (if r.pre_hooks.contains (kindOf n) then [Ev.pre (kindOf n)] else [])
            ++ [Ev.handler (kindOf n)]))
    ∧ (∀ h res g, r.targets.lookup (kindOf n) = some h → h n = .ok res →
        r.post_hooks.lookup (kindOf n) = some g →
        visit r (some n) = .ok (g res,
          (if r.pre_hooks.contains (kindOf n) then [Ev.pre (kindOf n)] else [])
            ++ [Ev.handler (kindOf n), Ev.post (kindOf n)]))
    ∧ (∀ n' evs, r.targets.lookup (kindOf n) = none →
        r.post_hooks.lookup (kindOf n) = none →
        genericVisit r n = .ok (n', evs) →
        visit r (some n) = .ok (some n',
          (if r.pre_hooks.contains (kindOf n) then [Ev.pre (kindOf n)] else [])
            ++ evs)) := by
  refine ⟨by simp [visit, REMOVE_NODE], ?_, ?_, ?_, ?_⟩
  · intro res tr hv hpre
    have hpre' : kindOf n ∈ r.pre_hooks := by simpa using hpre
    simp only [visit] at hv
    split at hv
    · split at hv
      · exact absurd hv (by simp)
      · split at hv <;> (cases hv; simp [hpre'])
    · split at hv
      · exact absurd hv (by simp)
      · split at hv <;> (cases hv; simp [hpre'])
  · intro h res hlk hh hpost
    simp [visit, hlk, hh, hpost]
  · intro h res g hlk hh hpost
    simp [visit, hlk, hh, hpost]
  · intro n' evs hlk hpost hg
    simp [visit, hlk, hg, hpost]

/-- C6 witness: a concrete configuration with a pre-hook, a handler and a
post-hook on kind `Stmt`, evaluated on a concrete node. -/
theorem c6_witness :
    visit
      { targets := [("Stmt", fun n => .ok (some n))],
        pre_hooks := ["Stmt"],
        post_hooks := [("Stmt", fun _ => some (.other "Replaced" []))] }
      (some (.other "Stmt" [])) =
      .ok (some (.other "Replaced" []),
        [Ev.pre "Stmt", Ev.handler "Stmt", Ev.post "Stmt"]) := by
  have h := (c6_visit_step_order
    { targets := [("Stmt", fun n => .ok (some n))],
      pre_hooks := ["Stmt"],
      post_hooks := [("Stmt", fun _ => some (.other "Replaced" []))] }
    (.other "Stmt" [])).2.2.2.1
    (fun n => .ok (some n)) (some (.other "Stmt" []))
    (fun _ => some (.other "Replaced" [])) rfl rfl rfl
  simpa using h

/-- C7: a child rewritten to the deletion sentinel is removed from its
parent's ordered child sequence with no hole left (the surviving children
are exactly the non-deleted rewrites, in order), and a handler deleting a
container returns the sentinel at once without visiting the container's
descendants (the trace carries only this node's events). -/
theorem c7_remove_node (r : Rewriter) (cs : List PyNode) (n : PyNode) :
    (∀ cs' evs, visitChildren r cs = .ok (cs', evs) →
        cs' = cs.filterMap (fun c => match visit r (some c) with
          | .ok (res, _) => res
          | .error _ => none))
    ∧ (∀ h, r.targets.lookup (kindOf n) = some h → h n = .ok REMOVE_NODE →
        r.post_hooks.lookup (kindOf n) = none →
        visit r (some n) = .ok (REMOVE_NODE,
          (if r.pre_hooks.contains (kindOf n) then [Ev.pre (kindOf n)] else [])
            ++ [Ev.handler (kindOf n)])) := by
  constructor
  · intro cs' evs hv
    induction cs generalizing cs' evs with
    | nil =>
      simp [visitChildren] at hv
      simp [hv.1]
    | cons c cst ih =>
      simp only [visitChildren] at hv
      cases hvc : visit r (some c) with
      | error e => rw [hvc] at hv; exact absurd hv (by simp)
      | ok p =>
        obtain ⟨res, ev1⟩ := p
        rw [hvc] at hv
        cases hrest : visitChildren r cst with
        | error e => rw [hrest] at hv; exact absurd hv (by simp)
        | ok q =>
          obtain ⟨cs'', ev2⟩ := q
          rw [hrest] at hv
          simp only [Except.ok.injEq, Prod.mk.injEq] at hv
          obtain ⟨hcs, -⟩ := hv
          have hih := ih cs'' ev2 hrest
          cases res <;> simp_all [List.filterMap_cons, hvc]
  · intro h hlk hh hpost
    simp [visit, hlk, hh, hpost, REMOVE_NODE]

/-- C7 witness: with a deleting handler on `FunctionDef` and a pre-hook
registered on kind `Marker`, deleting `functionDef "gone"` (whose body
holds a `Marker` node) produces the sentinel with a trace showing no visit
of the descendant, and the parent's child sequence drops the deleted child
with no hole. -/
theorem c7_witness :
    visit
      { targets := [("FunctionDef", fun _ => .ok REMOVE_NODE)],
        pre_hooks := ["Marker"] }
      (some (.functionDef "gone" [.other "Marker" []])) =
      .ok (REMOVE_NODE, [Ev.handler "FunctionDef"])
    ∧ visitChildren
      { targets := [("FunctionDef", fun _ => .ok REMOVE_NODE)],
        pre_hooks := ["Marker"] }
      [.functionDef "gone" [.other "Marker" []], .other "Keep" []] =
      .ok ([.other "Keep" []], [Ev.handler "FunctionDef"]) := by
  constructor
  · have h := (c7_remove_node
      { targets := [("FunctionDef", fun _ => .ok REMOVE_NODE)],
        pre_hooks := ["Marker"] } []
      (.functionDef "gone" [.other "Marker" []])).2
      (fun _ => .ok REMOVE_NODE) rfl rfl rfl
    simpa [kindOf] using h
  · simp [visitChildren, visit, genericVisit, List.lookup, kindOf, REMOVE_NODE]

/-- C5 counterexample: the claim that the remaining files of a run are
still processed after a handler raises is false.  With a handler on kind
`Boom` that raises, a run over `a.py` (whose tree is a `Boom` node)
followed by `b.py` aborts at `a.py`: the error propagates out of the loop
and nothing at all is written — in particular `b.py` is never emitted. -/
theorem c5_counterexample :
    generate { targets := [("Boom", fun _ => .error "boom")] }
      [("a.py", .other "Boom" []), ("b.py", .module [])] [] =
      ([], some "boom") := by
  simp [generate, visit, List.lookup, kindOf]

/-- C5 (amended): a handler that raises is not caught inside the tree
rewriter — `visit` propagates the error — and it is not caught in the
generation loop either: the run aborts at the failing file, nothing is
written for it, and the remaining files are not processed. -/
theorem c5_handler_error_aborts_run (r : Rewriter) (n : PyNode)
    (fname : String) (tree : PyNode) (rest : List (String × PyNode))
    (fs : List (String × Option PyNode)) (e : String) :
    (∀ h, r.targets.lookup (kindOf n) = some h → h n = .error e →
        visit r (some n) = .error e)
    ∧ ((fname == "__init__.py") = false → visit r (some tree) = .error e →
        generate r ((fname, tree) :: rest) fs = (fs, some e)) := by
  constructor
  · intro h hlk hh
    simp [visit, hlk, hh]
  · intro hn hv
    simp [generate, hn, hv]

/-- C5 witness: the amended statement applied at the concrete raising
configuration of the counterexample. -/
theorem c5_witness :
    visit { targets := [("Boom", fun _ => .error "boom")] }
      (some (.other "Boom" [])) = .error "boom"
    ∧ generate { targets := [("Boom", fun _ => .error "boom")] }
      [("a.py", .other "Boom" []), ("b.py", .module [])] [] =
      ([], some "boom") := by
  have h := c5_handler_error_aborts_run
    { targets := [("Boom", fun _ => .error "boom")] }
    (.other "Boom" []) "a.py" (.other "Boom" [])
    [("b.py", .module [])] [] "boom"
  have h1 : visit { targets := [("Boom", fun _ => .error "boom")] }
      (some (.other "Boom" [])) = .error "boom" :=
    h.1 (fun _ => .error "boom") rfl rfl
  exact ⟨h1, by simpa using h.2 rfl h1⟩

/-- C4 counterexample: the claim that generation raises a fatal
"target exists" error for an already-present output file is false.
Generating `a.py` into a directory that already holds `a.py` (and with no
force flag anywhere in `generate`'s interface) reports no error and
overwrites the file. -/
theorem c4_counterexample :
    generate (fileLevel_build_rewriter [] []) [("a.py", .module [])]
      [("a.py", some (.other "Old" []))] =
      ([("a.py", some (.module []))], none) := by
  simp [generate, visit, genericVisit, visitChildren, fileLevel_build_rewriter,
    List.lookup, kindOf, _generate_from_ast, fsWrite]

/-- C4 (amended): `generate` performs no existence check in either mode —
its error outcome is independent of what the output directory already
holds, and an existing file of the same name is silently overwritten.
Only `generate_init` (for `__init__.py`) and `copy_file` refuse an
existing target unless the force flag is set, raising the "exists!"
error. -/
theorem c4_no_overwrite_check :
    (∀ (r : Rewriter) (files : List (String × PyNode))
        (fs fs' : List (String × Option PyNode)),
        (generate r files fs).2 = (generate r files fs').2)
    ∧ (∀ existing, existing.contains "__init__.py" = true →
        generate_init existing false = .error "__init__.py exists!")
    ∧ (∀ existing, generate_init existing true = .ok ())
    ∧ (∀ existing src,
        existing.contains (String.mk (lastComponentGo '/' src.toList [])) = true →
        copy_file existing src false = .error (src ++ " exists!"))
    ∧ (∀ existing src, copy_file existing src true = .ok ()) := by
  refine ⟨?_, ?_, ?_, ?_, ?_⟩
  · intro r files
    induction files with
    | nil => intro fs fs'; simp [generate]
    | cons p rest ih =>
      intro fs fs'
      obtain ⟨fname, tree⟩ := p
      by_cases hn : (fname == "__init__.py") = true
      · simpa [generate, hn] using ih fs fs'
      · rw [Bool.not_eq_true] at hn
        cases hv : visit r (some tree) with
        | error e => simp [generate, hn, hv]
        | ok q => simpa [generate, hn, hv] using ih _ _
  · intro existing hex
    have hex' : "__init__.py" ∈ existing := by simpa using hex
    simp [generate_init, hex']
  · intro existing
    simp [generate_init]
  · intro existing src hex
    have hex' : String.mk (lastComponentGo '/' src.toList []) ∈ existing := by
      simpa using hex
    simp only [String.toList] at hex'
    simp [copy_file, String.toList, hex']
  · intro existing src
    simp [copy_file]

/-- C4 witness: the amended statement applied at a directory already
holding `a.py` and `__init__.py`. -/
theorem c4_witness :
    (generate (fileLevel_build_rewriter [] []) [("a.py", .module [])]
        [("a.py", some (.other "Old" []))]).2 =
      (generate (fileLevel_build_rewriter [] []) [("a.py", .module [])] []).2
    ∧ generate_init ["__init__.py"] false = .error "__init__.py exists!"
    ∧ generate_init ["__init__.py"] true = .ok ()
    ∧ copy_file ["a.py"] "src/a.py" false = .error "src/a.py exists!"
    ∧ copy_file ["a.py"] "src/a.py" true = .ok () := by
  refine ⟨c4_no_overwrite_check.1 (fileLevel_build_rewriter [] [])
      [("a.py", .module [])] [("a.py", some (.other "Old" []))] [],
    c4_no_overwrite_check.2.1 ["__init__.py"] rfl,
    c4_no_overwrite_check.2.2.1 ["__init__.py"],
    ?_, c4_no_overwrite_check.2.2.2.2 ["a.py"] "src/a.py"⟩
  have h := c4_no_overwrite_check.2.2.2.1 ["a.py"] "src/a.py"
  apply h
  rfl

theorem classMerge_foldl_body (cn : String) (methods : List String) :
    ∀ (bases : List PyNode) (cbs : List String) (cbody : List PyNode),
    bodyOf (bases.foldl (fun acc b =>
        .classDef cn (basesOf b) (bodyOf acc ++ mergeCollect methods b))
      (.classDef cn cbs cbody)) =
    cbody ++ bases.flatMap (mergeCollect methods) := by
  intro bases
  induction bases with
  | nil => intro cbs cbody; simp [bodyOf]
  | cons b bs ih =>
    intro cbs cbody
    have hstep : ((b :: bs).foldl (fun acc b =>
        PyNode.classDef cn (basesOf b) (bodyOf acc ++ mergeCollect methods b))
        (.classDef cn cbs cbody)) =
      (bs.foldl (fun acc b =>
        PyNode.classDef cn (basesOf b) (bodyOf acc ++ mergeCollect methods b))
        (.classDef cn (basesOf b) (cbody ++ mergeCollect methods b))) := rfl
    rw [hstep, ih (basesOf b) (cbody ++ mergeCollect methods b),
      List.flatMap_cons, List.append_assoc]

theorem countMethodNamed_eq_zero_of_not_collected (nm : String) :
    ∀ (cbody : List PyNode),
    nm ∉ collectFuncNamesList cbody →
    countMethodNamed nm cbody = 0 := by
  intro cbody
  induction cbody with
  | nil => intro _; rfl
  | cons c cs ih =>
    intro h
    rw [collectFuncNamesList] at h
    simp only [List.mem_append, not_or] at h
    obtain ⟨h1, h2⟩ := h
    have hcs := ih h2
    cases c with
    | functionDef nm' b =>
      rw [collectFuncNames] at h1
      have hne : nm' ≠ nm := fun e => h1 (by simp [e])
      have hb : (nm' == nm) = false := by simpa using hne
      simpa [countMethodNamed, List.filter_cons, hb]
        using hcs
    | module b => simpa [countMethodNamed, List.filter_cons] using hcs
    | classDef nm' bs b => simpa [countMethodNamed, List.filter_cons] using hcs
    | importFrom mod lvl ns t => simpa [countMethodNamed, List.filter_cons] using hcs
    | importStmt ns => simpa [countMethodNamed, List.filter_cons] using hcs
    | other k cs2 => simpa [countMethodNamed, List.filter_cons] using hcs

/-- C2 counterexample: the claim's "first-writer-wins across already-copied
names ... never duplicated" is false.  `_ClassVisitor`'s method-name set is
collected once from the original subclass and never refreshed while bases
are merged, so merging `Child(Base1, Base2)` where both bases define
`method1` and `Child` does not copies `method1` twice into the merged
body. -/
theorem c2_counterexample :
    countMethodNamed "method1" (bodyOf (ClassMerging_merge
      (.classDef "Child" ["Base1", "Base2"] [])
      [.classDef "Base1" ["object"] [.functionDef "method1" [.other "Pass" []]],
       .classDef "Base2" ["object"] [.functionDef "method1" [.other "Return" []]]])) =
      2 := by
  simp [ClassMerging_merge, collectFuncNames, collectFuncNamesList,
    mergeCollect, mergeCollectList, basesOf, bodyOf, countMethodNamed,
    List.filter]

/-- C2 (amended): during `ClassMerging.merge` each base-class method is
copied into the subclass body iff its name is not among the `FunctionDef`
names collected once from the original subclass (a set fixed before any
copying, never updated as bases are processed, and including names of
functions nested inside method bodies); bases are processed in order and
their surviving methods appended.  Consequently, for a single base
defining `method1`: if the subclass's collected names lack `method1`, the
merged class has exactly one `method1` (the base's); if they contain it,
the merged body is unchanged — the subclass's version is kept and the
base's is dropped.  With several bases sharing a method name, each
surviving copy is appended, so duplicates can arise. -/
theorem c2_merge_first_writer (cn : String) (cbs bbs : List String)
    (cbody mbody : List PyNode) (bases : List PyNode) :
    (bodyOf (ClassMerging_merge (.classDef cn cbs cbody) bases) =
      cbody ++ bases.flatMap
        (mergeCollect (collectFuncNames (.classDef cn cbs cbody))))
    ∧ ((collectFuncNames (.classDef cn cbs cbody)).contains "method1" = false →
        bodyOf (ClassMerging_merge (.classDef cn cbs cbody)
          [.classDef "Base" bbs [.functionDef "method1" mbody]]) =
          cbody ++ [.functionDef "method1" mbody]
        ∧ countMethodNamed "method1"
            (bodyOf (ClassMerging_merge (.classDef cn cbs cbody)
              [.classDef "Base" bbs [.functionDef "method1" mbody]])) = 1)
    ∧ ((collectFuncNames (.classDef cn cbs cbody)).contains "method1" = true →
        bodyOf (ClassMerging_merge (.classDef cn cbs cbody)
          [.classDef "Base" bbs [.functionDef "method1" mbody]]) = cbody) := by
  have hbody : ∀ (bs : List PyNode),
      bodyOf (ClassMerging_merge (.classDef cn cbs cbody) bs) =
      cbody ++ bs.flatMap
        (mergeCollect (collectFuncNames (.classDef cn cbs cbody))) := by
    intro bs
    simp only [ClassMerging_merge]
    exact classMerge_foldl_body cn _ bs cbs cbody
  refine ⟨hbody bases, ?_, ?_⟩
  · intro hnc
    have hnc' : "method1" ∉ collectFuncNames (PyNode.classDef cn cbs cbody) := by
      simpa using hnc
    have hsingle : bodyOf (ClassMerging_merge (.classDef cn cbs cbody)
        [.classDef "Base" bbs [.functionDef "method1" mbody]]) =
        cbody ++ [.functionDef "method1" mbody] := by
      rw [hbody]
      simp [mergeCollect, mergeCollectList, hnc']
    refine ⟨hsingle, ?_⟩
    rw [hsingle]
    have hz : countMethodNamed "method1" cbody = 0 := by
      apply countMethodNamed_eq_zero_of_not_collected
      simpa [collectFuncNames] using hnc'
    simp only [countMethodNamed] at hz ⊢
    rw [List.filter_append, List.length_append, hz]
    simp [List.filter]
  · intro hc
    have hc' : "method1" ∈ collectFuncNames (PyNode.classDef cn cbs cbody) := by
      simpa using hc
    rw [hbody]
    simp [mergeCollect, mergeCollectList, hc']

/-- C2 witness: the amended statement applied to the single-base scenarios
of the claim — `Child(Base)` without its own `method1` gains exactly one
`method1` (Base's); `Child(Base)` with its own `method1` keeps its version
and Base's is dropped. -/
theorem c2_witness :
    (bodyOf (ClassMerging_merge (.classDef "Child" ["Base"] [])
      [.classDef "Base" ["object"] [.functionDef "method1" [.other "Pass" []]]]) =
      [.functionDef "method1" [.other "Pass" []]]
    ∧ countMethodNamed "method1" (bodyOf (ClassMerging_merge
        (.classDef "Child" ["Base"] [])
        [.classDef "Base" ["object"] [.functionDef "method1" [.other "Pass" []]]])) = 1)
    ∧ bodyOf (ClassMerging_merge
        (.classDef "Child" ["Base"] [.functionDef "method1" [.other "Mine" []]])
        [.classDef "Base" ["object"] [.functionDef "method1" [.other "Pass" []]]]) =
      [.functionDef "method1" [.other "Mine" []]] := by
  constructor
  · have h := (c2_merge_first_writer "Child" ["Base"] ["object"] []
      [.other "Pass" []] []).2.1
      (by simp [collectFuncNames, collectFuncNamesList])
    exact ⟨by simpa using h.1, h.2⟩
  · exact (c2_merge_first_writer "Child" ["Base"] ["object"]
      [.functionDef "method1" [.other "Mine" []]] [.other "Pass" []] []).2.2
      (by simp [collectFuncNames, collectFuncNamesList])

theorem sizeOf_lt_of_mem_childrenOf :
    ∀ (t c : PyNode), c ∈ childrenOf t → sizeOf c < sizeOf t := by
  intro t c h
  cases t with
  | module b =>
    simp only [childrenOf] at h
    have := List.sizeOf_lt_of_mem h
    simp only [PyNode.module.sizeOf_spec]
    omega
  | functionDef nm b =>
    simp only [childrenOf] at h
    have := List.sizeOf_lt_of_mem h
    simp only [PyNode.functionDef.sizeOf_spec]
    omega
  | classDef nm bs b =>
    simp only [childrenOf] at h
    have := List.sizeOf_lt_of_mem h
    simp only [PyNode.classDef.sizeOf_spec]
    omega
  | importFrom mod lvl ns tgt => simp [childrenOf] at h
  | importStmt ns => simp [childrenOf] at h
  | other k cs =>
    simp only [childrenOf] at h
    have := List.sizeOf_lt_of_mem h
    simp only [PyNode.other.sizeOf_spec]
    omega

theorem pynode_strong_ind (P : PyNode → Prop)
    (ih : ∀ t, (∀ c, c ∈ childrenOf t → P c) → P t) : ∀ t, P t := by
  have H : ∀ k, ∀ t : PyNode, sizeOf t < k → P t := by
    intro k
    induction k with
    | zero => intro t ht; omega
    | succ k ihk =>
      intro t ht
      apply ih
      intro c hc
      exact ihk c (by have := sizeOf_lt_of_mem_childrenOf t c hc; omega)
  intro t
  exact H (sizeOf t + 1) t (by omega)

theorem c10_visit_aux (bp : List String) :
    ∀ t : PyNode, wfPyNode t = true →
    (containsImportStmt t = true →
      visit (_postprocess_rewriter bp) (some t) = .error "raise NotImplemented")
    ∧ (containsImportStmt t = false →
      ∃ res evs, visit (_postprocess_rewriter bp) (some t) = .ok (res, evs)) := by
  refine pynode_strong_ind _ ?_
  intro t ihc
  have hlist : ∀ (b : List PyNode),
      (∀ c, c ∈ b → wfPyNode c = true →
        (containsImportStmt c = true →
          visit (_postprocess_rewriter bp) (some c) = .error "raise NotImplemented")
        ∧ (containsImportStmt c = false →
          ∃ res evs, visit (_postprocess_rewriter bp) (some c) = .ok (res, evs))) →
      wfPyNodeList b = true →
      (containsImportStmtList b = true →
        visitChildren (_postprocess_rewriter bp) b = .error "raise NotImplemented")
      ∧ (containsImportStmtList b = false →
        ∃ cs evs, visitChildren (_postprocess_rewriter bp) b = .ok (cs, evs)) := by
    intro b
    induction b with
    | nil =>
      intro _ _
      exact ⟨by simp [containsImportStmtList],
        fun _ => ⟨[], [], by simp [visitChildren]⟩⟩
    | cons c cs ihb =>
      intro hP hwf
      rw [wfPyNodeList] at hwf
      simp only [Bool.and_eq_true] at hwf
      have hc := hP c (by simp) hwf.1
      have hrest := ihb (fun x hx => hP x (by simp [hx])) hwf.2
      constructor
      · intro hct
        rw [containsImportStmtList] at hct
        cases hcc : containsImportStmt c with
        | true =>
          have hv := hc.1 hcc
          simp [visitChildren, hv]
        | false =>
          have hcs : containsImportStmtList cs = true := by
            rw [hcc] at hct; simpa using hct
          obtain ⟨res, evs, hok⟩ := hc.2 hcc
          have hv := hrest.1 hcs
          simp [visitChildren, hok, hv]
      · intro hcf
        rw [containsImportStmtList] at hcf
        simp only [Bool.or_eq_false_iff] at hcf
        obtain ⟨res, evs, hok⟩ := hc.2 hcf.1
        obtain ⟨cs', evs', hok'⟩ := hrest.2 hcf.2
        cases res with
        | none => exact ⟨cs', evs ++ evs', by simp [visitChildren, hok, hok']⟩
        | some c' =>
          exact ⟨c' :: cs', evs ++ evs', by simp [visitChildren, hok, hok']⟩
  intro hwf
  cases t with
  | importStmt ns =>
    refine ⟨fun _ => ?_, fun hcf => by simp [containsImportStmt] at hcf⟩
    simp [visit, _postprocess_rewriter, List.lookup, kindOf, _rewrite_class_imports]
  | importFrom mod lvl ns tgt =>
    rw [wfPyNode] at hwf
    refine ⟨fun hct => by simp [containsImportStmt] at hct, fun _ => ?_⟩
    cases ns with
    | nil => simp at hwf
    | cons a rest =>
      by_cases hbp : (a.asname.getD a.name) ∈ bp
      · refine ⟨none, [Ev.handler "ImportFrom"], ?_⟩
        simp [visit, _postprocess_rewriter, List.lookup, kindOf,
          _rewrite_class_imports, hbp]
      · refine ⟨some (.importFrom mod lvl (a :: rest) tgt),
          [Ev.handler "ImportFrom"], ?_⟩
        simp [visit, _postprocess_rewriter, List.lookup, kindOf,
          _rewrite_class_imports, hbp]
  | module b =>
    rw [wfPyNode] at hwf
    have h := hlist b (fun c hc => ihc c (by simpa [childrenOf] using hc)) hwf
    constructor
    · intro hct
      rw [containsImportStmt] at hct
      have hv := h.1 hct
      simp only [_postprocess_rewriter] at hv
      simp [visit, genericVisit, _postprocess_rewriter, List.lookup, kindOf, hv]
    · intro hcf
      rw [containsImportStmt] at hcf
      obtain ⟨cs', evs, hok⟩ := h.2 hcf
      simp only [_postprocess_rewriter] at hok
      exact ⟨some (.module cs'), evs,
        by simp [visit, genericVisit, _postprocess_rewriter, List.lookup, kindOf, hok]⟩
  | functionDef nm b =>
    rw [wfPyNode] at hwf
    have h := hlist b (fun c hc => ihc c (by simpa [childrenOf] using hc)) hwf
    constructor
    · intro hct
      rw [containsImportStmt] at hct
      have hv := h.1 hct
      simp only [_postprocess_rewriter] at hv
      simp [visit, genericVisit, _postprocess_rewriter, List.lookup, kindOf, hv]
    · intro hcf
      rw [containsImportStmt] at hcf
      obtain ⟨cs', evs, hok⟩ := h.2 hcf
      simp only [_postprocess_rewriter] at hok
      exact ⟨some (.functionDef nm cs'), evs,
        by simp [visit, genericVisit, _postprocess_rewriter, List.lookup, kindOf, hok]⟩
  | classDef nm bs b =>
    rw [wfPyNode] at hwf
    have h := hlist b (fun c hc => ihc c (by simpa [childrenOf] using hc)) hwf
    constructor
    · intro hct
      rw [containsImportStmt] at hct
      have hv := h.1 hct
      simp only [_postprocess_rewriter] at hv
      simp [visit, genericVisit, _postprocess_rewriter, List.lookup, kindOf, hv]
    · intro hcf
      rw [containsImportStmt] at hcf
      obtain ⟨cs', evs, hok⟩ := h.2 hcf
      simp only [_postprocess_rewriter] at hok
      exact ⟨some (.classDef nm bs cs'), evs,
        by simp [visit, genericVisit, _postprocess_rewriter, List.lookup, kindOf, hok]⟩
  | other k cs =>
    rw [wfPyNode] at hwf
    simp only [Bool.and_eq_true] at hwf
    obtain ⟨⟨⟨⟨⟨h1, h2⟩, h3⟩, h4⟩, h5⟩, hwfl⟩ := hwf
    have hlk : List.lookup k
        [("ImportFrom", _rewrite_class_imports bp),
         ("Import", _rewrite_class_imports bp)] = none := by
      simp only [Bool.not_eq_true'] at h1 h2
      simp [List.lookup, h1, h2]
    have h := hlist cs (fun c hc => ihc c (by simpa [childrenOf] using hc)) hwfl
    constructor
    · intro hct
      rw [containsImportStmt] at hct
      have hv := h.1 hct
      simp only [_postprocess_rewriter] at hv
      simp [visit, genericVisit, _postprocess_rewriter, kindOf, hlk, hv]
    · intro hcf
      rw [containsImportStmt] at hcf
      obtain ⟨cs', evs, hok⟩ := h.2 hcf
      simp only [_postprocess_rewriter] at hok
      exact ⟨some (.other k cs'), evs,
        by simp [visit, genericVisit, _postprocess_rewriter, kindOf, hlk, hok]⟩

/-- C10: the segment-level postprocess pass is partial — the handler
registered for both `ImportFrom` and `Import` reaches its
non-`ImportFrom` branch on a plain `import x` node and raises (`raise
NotImplemented`), so postprocessing any (well-formed) file whose rewritten
tree still contains a plain import statement fails with that exception
instead of stripping or passing the import through. -/
theorem c10_postprocess_raises (bp : List String) (t : PyNode)
    (ns : List PyAlias) :
    _rewrite_class_imports bp (.importStmt ns) = .error "raise NotImplemented"
    ∧ (wfPyNode t = true → containsImportStmt t = true →
        visit (_postprocess_rewriter bp) (some t) =
          .error "raise NotImplemented") :=
  ⟨rfl, fun hwf hct => (c10_visit_aux bp t hwf).1 hct⟩

/-- C10 witness: postprocessing a module holding `import os` raises. -/
theorem c10_witness :
    visit (_postprocess_rewriter ["Base"])
      (some (.module [.importStmt [⟨"os", none⟩]])) =
      .error "raise NotImplemented" :=
  (c10_postprocess_raises ["Base"] (.module [.importStmt [⟨"os", none⟩]]) []).2
    (by simp [wfPyNode, wfPyNodeList]) (by simp [containsImportStmt, containsImportStmtList])

theorem c8_visit_aux (mapper : List (String × String)) :
    ∀ t : PyNode, wfPyNode t = true →
    ∃ evs, visit (fileLevel_build_rewriter mapper []) (some t) =
      .ok (some (mapImports mapper t), evs) := by
  refine pynode_strong_ind _ ?_
  intro t ihc
  have hlist : ∀ (b : List PyNode),
      (∀ c, c ∈ b → wfPyNode c = true →
        ∃ evs, visit (fileLevel_build_rewriter mapper []) (some c) =
          .ok (some (mapImports mapper c), evs)) →
      wfPyNodeList b = true →
      ∃ evs, visitChildren (fileLevel_build_rewriter mapper []) b =
        .ok (mapImportsList mapper b, evs) := by
    intro b
    induction b with
    | nil => intro _ _; exact ⟨[], by simp [visitChildren, mapImportsList]⟩
    | cons c cs ihb =>
      intro hP hwf
      rw [wfPyNodeList] at hwf
      simp only [Bool.and_eq_true] at hwf
      obtain ⟨evs, hok⟩ := hP c (by simp) hwf.1
      obtain ⟨evs', hok'⟩ := ihb (fun x hx => hP x (by simp [hx])) hwf.2
      exact ⟨evs ++ evs', by simp [visitChildren, hok, hok', mapImportsList]⟩
  intro hwf
  cases t with
  | importStmt ns =>
    exact ⟨[Ev.handler "Import"], by
      simp [visit, fileLevel_build_rewriter, List.lookup, kindOf, mapImports]⟩
  | importFrom mod lvl ns tgt =>
    exact ⟨[Ev.handler "ImportFrom"], by
      simp [visit, fileLevel_build_rewriter, List.lookup, kindOf, mapImports]⟩
  | module b =>
    rw [wfPyNode] at hwf
    obtain ⟨evs, hok⟩ := hlist b (fun c hc => ihc c (by simpa [childrenOf] using hc)) hwf
    simp only [fileLevel_build_rewriter, List.nil_append] at hok
    exact ⟨evs, by
      simp [visit, genericVisit, fileLevel_build_rewriter, List.lookup, kindOf,
        hok, mapImports]⟩
  | functionDef nm b =>
    rw [wfPyNode] at hwf
    obtain ⟨evs, hok⟩ := hlist b (fun c hc => ihc c (by simpa [childrenOf] using hc)) hwf
    simp only [fileLevel_build_rewriter, List.nil_append] at hok
    exact ⟨evs, by
      simp [visit, genericVisit, fileLevel_build_rewriter, List.lookup, kindOf,
        hok, mapImports]⟩
  | classDef nm bs b =>
    rw [wfPyNode] at hwf
    obtain ⟨evs, hok⟩ := hlist b (fun c hc => ihc c (by simpa [childrenOf] using hc)) hwf
    simp only [fileLevel_build_rewriter, List.nil_append] at hok
    exact ⟨evs, by
      simp [visit, genericVisit, fileLevel_build_rewriter, List.lookup, kindOf,
        hok, mapImports]⟩
  | other k cs =>
    rw [wfPyNode] at hwf
    simp only [Bool.and_eq_true] at hwf
    obtain ⟨⟨⟨⟨⟨h1, h2⟩, h3⟩, h4⟩, h5⟩, hwfl⟩ := hwf
    have hlk : List.lookup k
        [("Import", fun n => Except.ok (some (rewrite_imports mapper n))),
         ("ImportFrom", fun n => Except.ok (some (rewrite_imports mapper n)))] =
        (none : Option (PyNode → Except String (Option PyNode))) := by
      simp only [Bool.not_eq_true'] at h1 h2
      simp [List.lookup, h1, h2]
    obtain ⟨evs, hok⟩ := hlist cs (fun c hc => ihc c (by simpa [childrenOf] using hc)) hwfl
    simp only [fileLevel_build_rewriter, List.nil_append] at hok
    exact ⟨evs, by
      simp [visit, genericVisit, fileLevel_build_rewriter, kindOf, hlk, hok,
        mapImports]⟩

theorem topDefNames_mapImportsList (mapper : List (String × String)) :
    ∀ (body : List PyNode),
    topDefNames (mapImportsList mapper body) = topDefNames body := by
  intro body
  induction body with
  | nil => rfl
  | cons c cs ih =>
    rw [mapImportsList]
    cases c with
    | functionDef nm b => simp [topDefNames, mapImports, defName] at ih ⊢; exact ih
    | classDef nm bs b => simp [topDefNames, mapImports, defName] at ih ⊢; exact ih
    | module b => simp [topDefNames, mapImports, defName] at ih ⊢; exact ih
    | importStmt ns => simp [topDefNames, mapImports, defName, rewrite_imports] at ih ⊢; exact ih
    | other k cs2 => simp [topDefNames, mapImports, defName] at ih ⊢; exact ih
    | importFrom mod lvl ns tgt =>
      have : defName (rewrite_imports mapper (.importFrom mod lvl ns tgt)) = none := by
        rw [rewrite_imports]
        split
        · cases List.lookup mod mapper <;> rfl
        · rfl
      simp [topDefNames, mapImports, this] at ih ⊢
      exact ih

/-- C8: file-level generation never prunes — rewriting any (well-formed)
module with the file-level rewriter succeeds and returns the module with
exactly the import nodes rewritten and everything else structurally
untouched (`mapImports`), so every original top-level definition survives
with its name, and only import statements may be modified. -/
theorem c8_fileLevel_never_prunes (mapper : List (String × String))
    (body : List PyNode) (hwf : wfPyNodeList body = true) :
    (∃ evs, visit (fileLevel_build_rewriter mapper []) (some (.module body)) =
      .ok (some (.module (mapImportsList mapper body)), evs))
    ∧ topDefNames (mapImportsList mapper body) = topDefNames body := by
  constructor
  · have h := c8_visit_aux mapper (.module body) (by simpa [wfPyNode] using hwf)
    simpa [mapImports] using h
  · exact topDefNames_mapImportsList mapper body

/-- C8 witness: a module with a corpus import, a function and a class;
the rewrite only remaps the import and keeps both definitions. -/
theorem c8_witness :
    visitResult (fileLevel_build_rewriter [("pkg.util", "util")] [])
      (some (.module [.importFrom "pkg.util" 0 [⟨"helper", none⟩] true,
        .functionDef "f" [], .classDef "C" [] []])) =
      .ok (some (.module [.importFrom "util" 0 [⟨"helper", none⟩] true,
        .functionDef "f" [], .classDef "C" [] []]))
    ∧ topDefNames (mapImportsList [("pkg.util", "util")]
        [.importFrom "pkg.util" 0 [⟨"helper", none⟩] true,
         .functionDef "f" [], .classDef "C" [] []]) = ["f", "C"] := by
  have h := c8_fileLevel_never_prunes [("pkg.util", "util")]
    [.importFrom "pkg.util" 0 [⟨"helper", none⟩] true,
     .functionDef "f" [], .classDef "C" [] []]
    (by simp [wfPyNodeList, wfPyNode])
  obtain ⟨⟨evs, hv⟩, hnames⟩ := h
  constructor
  · rw [visitResult, hv]
    simp [mapImportsList, mapImports, rewrite_imports, List.lookup, Except.map]
  · rw [hnames]
    simp [topDefNames, defName, List.filterMap]

theorem lookup_mem {β : Type} {l : List (String × β)} {a : String} {b : β}
    (h : l.lookup a = some b) : (a, b) ∈ l := by
  induction l with
  | nil => simp [List.lookup] at h
  | cons p rest ih =>
    obtain ⟨k, v⟩ := p
    rw [List.lookup] at h
    cases hk : a == k with
    | true =>
      rw [hk] at h
      cases h
      have : a = k := by simpa using hk
      simp [this]
    | false =>
      rw [hk] at h
      exact List.mem_cons_of_mem _ (ih h)

theorem defName_rewrite_imports (mapper : List (String × String)) (n : PyNode) :
    defName (rewrite_imports mapper n) = defName n := by
  cases n with
  | importFrom mod lvl ns tgt =>
    rw [rewrite_imports]
    split
    · cases List.lookup mod mapper <;> rfl
    · rfl
  | module b => rfl
  | functionDef nm b => rfl
  | classDef nm bs b => rfl
  | importStmt ns => rfl
  | other k cs => rfl

theorem c1_visit_aux (mapper : List (String × String)) (ext loc : List String) :
    ∀ t : PyNode,
    ∃ res evs,
      visit (segment_build_rewriter mapper ext loc) (some t) = .ok (res, evs)
      ∧ (match t with
         | .functionDef nm b => res = rewrite_defs ext loc (.functionDef nm b)
         | .classDef nm bs b => res = rewrite_defs ext loc (.classDef nm bs b)
         | _ => ∃ c', res = some c' ∧ defName c' = none) := by
  refine pynode_strong_ind _ ?_
  intro t ihc
  have hlist : ∀ (b : List PyNode),
      (∀ c, c ∈ b → ∃ res evs,
        visit (segment_build_rewriter mapper ext loc) (some c) = .ok (res, evs)
        ∧ (match c with
           | .functionDef nm b2 => res = rewrite_defs ext loc (.functionDef nm b2)
           | .classDef nm bs b2 => res = rewrite_defs ext loc (.classDef nm bs b2)
           | _ => ∃ c', res = some c' ∧ defName c' = none)) →
      ∃ b' evs,
        visitChildren (segment_build_rewriter mapper ext loc) b = .ok (b', evs) := by
    intro b
    induction b with
    | nil => intro _; exact ⟨[], [], by simp [visitChildren]⟩
    | cons c cs ihb =>
      intro hP
      obtain ⟨res, evs, hok, -⟩ := hP c (by simp)
      obtain ⟨cs', evs', hok'⟩ := ihb (fun x hx => hP x (by simp [hx]))
      cases res with
      | none => exact ⟨cs', evs ++ evs', by simp [visitChildren, hok, hok']⟩
      | some c' =>
        exact ⟨c' :: cs', evs ++ evs', by simp [visitChildren, hok, hok']⟩
  cases t with
  | functionDef nm b =>
    exact ⟨rewrite_defs ext loc (.functionDef nm b), [Ev.handler "FunctionDef"],
      by simp [visit, segment_build_rewriter, List.lookup, kindOf], by simp⟩
  | classDef nm bs b =>
    exact ⟨rewrite_defs ext loc (.classDef nm bs b),
      [Ev.pre "ClassDef", Ev.handler "ClassDef"],
      by simp [visit, segment_build_rewriter, List.lookup, kindOf], by simp⟩
  | importFrom mod lvl ns tgt =>
    refine ⟨some (rewrite_imports mapper (.importFrom mod lvl ns tgt)),
      [Ev.handler "ImportFrom"],
      by simp [visit, segment_build_rewriter, List.lookup, kindOf], ?_⟩
    exact ⟨rewrite_imports mapper (.importFrom mod lvl ns tgt), rfl,
      defName_rewrite_imports mapper (.importFrom mod lvl ns tgt)⟩
  | importStmt ns =>
    exact ⟨some (.importStmt ns), [Ev.handler "Import"],
      by simp [visit, segment_build_rewriter, List.lookup, kindOf, rewrite_imports],
      ⟨.importStmt ns, rfl, rfl⟩⟩
  | module b =>
    obtain ⟨b', evs, hok⟩ :=
      hlist b (fun c hc => ihc c (by simpa [childrenOf] using hc))
    simp only [segment_build_rewriter] at hok
    refine ⟨some (.module b'), evs, ?_, ⟨.module b', rfl, rfl⟩⟩
    simp [visit, genericVisit, segment_build_rewriter, List.lookup, kindOf, hok]
  | other k cs =>
    by_cases hk1 : k = "Import"
    · exact ⟨some (.other k cs), [Ev.handler "Import"],
        by simp [visit, segment_build_rewriter, List.lookup, kindOf, hk1,
          rewrite_imports],
        ⟨.other k cs, rfl, rfl⟩⟩
    · by_cases hk2 : k = "ImportFrom"
      · exact ⟨some (.other k cs), [Ev.handler "ImportFrom"],
          by simp [visit, segment_build_rewriter, List.lookup, kindOf, hk2,
            rewrite_imports],
          ⟨.other k cs, rfl, rfl⟩⟩
      · by_cases hk3 : k = "FunctionDef"
        · exact ⟨some (.other k cs), [Ev.handler "FunctionDef"],
            by simp [visit, segment_build_rewriter, List.lookup, kindOf, hk3,
              rewrite_defs],
            ⟨.other k cs, rfl, rfl⟩⟩
        · by_cases hk4 : k = "ClassDef"
          · exact ⟨some (.other k cs), [Ev.pre "ClassDef", Ev.handler "ClassDef"],
              by simp [visit, segment_build_rewriter, List.lookup, kindOf, hk4,
                rewrite_defs],
              ⟨.other k cs, rfl, rfl⟩⟩
          · obtain ⟨cs', evs, hok⟩ :=
              hlist cs (fun c hc => ihc c (by simpa [childrenOf] using hc))
            simp only [segment_build_rewriter] at hok
            have hlk : List.lookup k
                [("Import", fun n => Except.ok (some (rewrite_imports mapper n))),
                 ("ImportFrom", fun n => Except.ok (some (rewrite_imports mapper n))),
                 ("FunctionDef", fun n => Except.ok (rewrite_defs ext loc n)),
                 ("ClassDef", fun n => Except.ok (rewrite_defs ext loc n))] =
                (none : Option (PyNode → Except String (Option PyNode))) := by
              have b1 : (k == "Import") = false := by simpa using hk1
              have b2 : (k == "ImportFrom") = false := by simpa using hk2
              have b3 : (k == "FunctionDef") = false := by simpa using hk3
              have b4 : (k == "ClassDef") = false := by simpa using hk4
              simp [List.lookup, b1, b2, b3, b4]
            refine ⟨some (.other k cs'), evs, ?_, ⟨.other k cs', rfl, rfl⟩⟩
            simp [visit, genericVisit, segment_build_rewriter, kindOf, hlk, hok, hk4]

theorem topDefNames_cons_def (nm : String) (c : PyNode) (cs : List PyNode)
    (h : defName c = some nm) : topDefNames (c :: cs) = nm :: topDefNames cs := by
  simp [topDefNames, List.filterMap_cons, h]

theorem topDefNames_cons_nondef (c : PyNode) (cs : List PyNode)
    (h : defName c = none) : topDefNames (c :: cs) = topDefNames cs := by
  simp [topDefNames, List.filterMap_cons, h]

theorem c1_body_filter (mapper : List (String × String)) (ext loc : List String) :
    ∀ (body : List PyNode),
    ∃ body' evs,
      visitChildren (segment_build_rewriter mapper ext loc) body = .ok (body', evs)
      ∧ topDefNames body' = (topDefNames body).filter
          (fun nm => ext.contains nm || loc.contains nm) := by
  intro body
  induction body with
  | nil => exact ⟨[], [], by simp [visitChildren], by simp [topDefNames]⟩
  | cons c cs ih =>
    obtain ⟨cs', evs', hok', hnames⟩ := ih
    obtain ⟨res, evs, hok, hmatch⟩ := c1_visit_aux mapper ext loc c
    cases c with
    | functionDef nm b =>
      simp only at hmatch
      rw [rewrite_defs] at hmatch
      by_cases hlive : (ext.contains nm || loc.contains nm) = true
      · have hres : res = some (.functionDef nm b) := by
          rw [hmatch]
          have hc : (!ext.contains nm && !loc.contains nm) = false := by
            rw [← Bool.not_or, hlive]; rfl
          rw [if_neg (by rw [hc]; exact Bool.false_ne_true)]
        subst hres
        refine ⟨.functionDef nm b :: cs', evs ++ evs',
          by simp [visitChildren, hok, hok'], ?_⟩
        rw [topDefNames_cons_def nm (.functionDef nm b) cs' rfl,
          topDefNames_cons_def nm (.functionDef nm b) cs rfl,
          List.filter_cons_of_pos (p := fun s => ext.contains s || loc.contains s)
            hlive, hnames]
      · have hlive' : (ext.contains nm || loc.contains nm) = false := by
          simpa using hlive
        have hres : res = none := by
          rw [hmatch]
          have hc : (!ext.contains nm && !loc.contains nm) = true := by
            rw [← Bool.not_or, hlive']; rfl
          rw [if_pos hc]
        subst hres
        refine ⟨cs', evs ++ evs', by simp [visitChildren, hok, hok'], ?_⟩
        rw [topDefNames_cons_def nm (.functionDef nm b) cs rfl,
          List.filter_cons_of_neg (p := fun s => ext.contains s || loc.contains s)
            (by simp only [hlive']; exact Bool.false_ne_true), hnames]
    | classDef nm bs b =>
      simp only at hmatch
      rw [rewrite_defs] at hmatch
      by_cases hlive : (ext.contains nm || loc.contains nm) = true
      · have hres : res = some (.classDef nm bs b) := by
          rw [hmatch]
          have hc : (!ext.contains nm && !loc.contains nm) = false := by
            rw [← Bool.not_or, hlive]; rfl
          rw [if_neg (by rw [hc]; exact Bool.false_ne_true)]
        subst hres
        refine ⟨.classDef nm bs b :: cs', evs ++ evs',
          by simp [visitChildren, hok, hok'], ?_⟩
        rw [topDefNames_cons_def nm (.classDef nm bs b) cs' rfl,
          topDefNames_cons_def nm (.classDef nm bs b) cs rfl,
          List.filter_cons_of_pos (p := fun s => ext.contains s || loc.contains s)
            hlive, hnames]
      · have hlive' : (ext.contains nm || loc.contains nm) = false := by
          simpa using hlive
        have hres : res = none := by
          rw [hmatch]
          have hc : (!ext.contains nm && !loc.contains nm) = true := by
            rw [← Bool.not_or, hlive']; rfl
          rw [if_pos hc]
        subst hres
        refine ⟨cs', evs ++ evs', by simp [visitChildren, hok, hok'], ?_⟩
        rw [topDefNames_cons_def nm (.classDef nm bs b) cs rfl,
          List.filter_cons_of_neg (p := fun s => ext.contains s || loc.contains s)
            (by simp only [hlive']; exact Bool.false_ne_true), hnames]
    | module b =>
      obtain ⟨c', hres, hdn⟩ := hmatch
      subst hres
      refine ⟨c' :: cs', evs ++ evs', by simp [visitChildren, hok, hok'], ?_⟩
      rw [topDefNames_cons_nondef c' cs' hdn,
        topDefNames_cons_nondef (.module b) cs rfl, hnames]
    | importFrom mod lvl ns tgt =>
      obtain ⟨c', hres, hdn⟩ := hmatch
      subst hres
      refine ⟨c' :: cs', evs ++ evs', by simp [visitChildren, hok, hok'], ?_⟩
      rw [topDefNames_cons_nondef c' cs' hdn,
        topDefNames_cons_nondef (.importFrom mod lvl ns tgt) cs rfl, hnames]
    | importStmt ns =>
      obtain ⟨c', hres, hdn⟩ := hmatch
      subst hres
      refine ⟨c' :: cs', evs ++ evs', by simp [visitChildren, hok, hok'], ?_⟩
      rw [topDefNames_cons_nondef c' cs' hdn,
        topDefNames_cons_nondef (.importStmt ns) cs rfl, hnames]
    | other k cs2 =>
      obtain ⟨c', hres, hdn⟩ := hmatch
      subst hres
      refine ⟨c' :: cs', evs ++ evs', by simp [visitChildren, hok, hok'], ?_⟩
      rw [topDefNames_cons_nondef c' cs' hdn,
        topDefNames_cons_nondef (.other k cs2) cs rfl, hnames]

/-- C1 counterexample: the claimed "deleted iff the name is neither imported
from this file by some other file nor locally used" is false.  In
`c1Corpus`, the only name imported from `f.py` by another file is `y`, and
`f.py`'s local-use set is empty, so the claim requires the definition `x`
in `f.py` to be deleted; but `extern_uesd` is built from *all* corpus-import
names of the files importing from `f.py` — here `g.py` contributes
its import of `x` from the unrelated `h.py` — so `rewrite_defs` keeps `x`. -/
theorem c1_counterexample :
    importedFromByOthers c1Corpus "f.py" = ["y"]
    ∧ _analyze_local_calls ⟨["x"], [], []⟩ = []
    ∧ externUsed c1Corpus "f.py" = ["x", "y"]
    ∧ rewrite_defs (externUsed c1Corpus "f.py")
        (_analyze_local_calls ⟨["x"], [], []⟩) (.functionDef "x" []) =
        some (.functionDef "x" []) := by
  refine ⟨?_, ?_, ?_, ?_⟩
  · rfl
  · rfl
  · rfl
  · rfl

/-- C1 (amended): in segment-level generation a top-level function or class
definition is deleted iff its name is in neither `extern_uesd` — the
concatenation of *all* corpus-import names of the files that import from
this file, not only of the names imported from this file — nor the local
call set intersected with local definitions; in particular (second
conjunct) any definition imported from this file by name by some file is in
`extern_uesd` and hence kept. -/
theorem c1_segment_liveness (corpus : List (String × PParser)) (file : String)
    (p : PParser) (mapper : List (String × String)) (body : List PyNode) :
    (∃ body',
      visitResult (segment_build_rewriter mapper (externUsed corpus file)
        (_analyze_local_calls p)) (some (.module body)) =
        .ok (some (.module body'))
      ∧ topDefNames body' = (topDefNames body).filter
          (fun nm => (externUsed corpus file).contains nm
            || (_analyze_local_calls p).contains nm))
    ∧ (∀ G q D, corpus.lookup G = some q → (file, D) ∈ q.target_imports →
        (externUsed corpus file).contains D = true) := by
  constructor
  · obtain ⟨body', evs, hok, hnames⟩ :=
      c1_body_filter mapper (externUsed corpus file) (_analyze_local_calls p) body
    refine ⟨body', ?_, hnames⟩
    simp only [segment_build_rewriter] at hok
    rw [visitResult]
    simp [visit, genericVisit, segment_build_rewriter, List.lookup, kindOf, hok,
      Except.map]
  · intro G q D hlk hD
    have hmem : (G, q) ∈ corpus := lookup_mem hlk
    have hrel : (G, q.target_imports.map Prod.fst) ∈ relations corpus := by
      rw [relations]
      exact List.mem_map_of_mem _ hmem
    have hfile : file ∈ q.target_imports.map Prod.fst :=
      List.mem_map_of_mem Prod.fst hD
    have hG : G ∈ _get_imports_info (relations corpus) file := by
      rw [_get_imports_info]
      apply List.mem_flatMap.mpr
      refine ⟨(G, q.target_imports.map Prod.fst), hrel, ?_⟩
      apply List.mem_map.mpr
      refine ⟨file, ?_, rfl⟩
      apply List.mem_filter.mpr
      exact ⟨hfile, by simp⟩
    have hD' : D ∈ get_target_import_names q := by
      rw [get_target_import_names]
      exact List.mem_map_of_mem Prod.snd hD
    have hfin : D ∈ externUsed corpus file := by
      rw [externUsed]
      apply List.mem_flatMap.mpr
      refine ⟨G, hG, ?_⟩
      rw [hlk]
      exact hD'
    simpa using hfin

/-- C1 witness: in `c1Corpus`, the name `y` imported from `f.py` by `g.py`
is externally used (kept); rewriting a module of `f.py` holding `x` and an
unreferenced `dead` keeps `x` (externally-used by the code's aggregate) and
deletes `dead`. -/
theorem c1_witness :
    (externUsed c1Corpus "f.py").contains "y" = true
    ∧ visitResult (segment_build_rewriter [] (externUsed c1Corpus "f.py")
        (_analyze_local_calls ⟨["x"], [], []⟩))
        (some (.module [.functionDef "x" [], .functionDef "dead" []])) =
        .ok (some (.module [.functionDef "x" []])) := by
  constructor
  · exact (c1_segment_liveness c1Corpus "f.py" ⟨["x"], [], []⟩ [] []).2
      "g.py" ⟨[], [], [("h.py", "x"), ("f.py", "y")]⟩ "y" rfl (by simp)
  · simp [visitResult, visit, genericVisit, visitChildren, segment_build_rewriter,
      List.lookup, kindOf, rewrite_defs, externUsed, _get_imports_info, relations,
      get_target_import_names, _analyze_local_calls, c1Corpus, Except.map]

end CodeSlim
